import Mathlib

/-!
Verification of the tetrust game core.

This file gives a shallow embedding of the game core of the tetrust
repository (a terminal Tetris variant) and proves the specification's
claims about it.  The embedding follows the Rust sources module by module:

* `Tetrust.board`    — src/board.rs (`Board`, `clear_lines`, `collides`,
  `fix_active_block`, `buffer_zone_occupied`);
* `Tetrust.block`    — src/block.rs (`BlockType`, `Orientation` matrices,
  bounding boxes, `Rotation::positions`, `Block` with its rotation counter)
  together with the active piece (`ActiveBlock`), whose definition is not
  present in the sources and is modelled from the spec where noted;
* `Tetrust.rotation` — src/rotation.rs (explicit rotation records and the
  wrapping `RotationIndex`);
* `Tetrust.game`     — src/game.rs (`GameState`, `Event`, `update` and the
  landing procedure);
* `Tetrust.timer`    — src/timer.rs (`Tick`, `GameTimer`), abstracted over
  the wall-clock interval timer.

Machine integers are modelled as `Nat`/`Int` with explicit reduction
modulo `2 ^ 64` (`usize`/`u64`) or `2 ^ 32` (`u32`) where overflow can
occur.  Code paths that panic in Rust (`unimplemented!`, `expect`) are
modelled with `Option`, returning `none`.  Boards are lists of rows of
`Bool` cells, `true` standing for the source's cell value `1`.
-/

namespace Tetrust

/-- Modulus of `usize`/`u64` arithmetic on the 64-bit target. -/
def USIZE : Nat := 2 ^ 64

/-- Modulus of `u32` arithmetic. -/
def U32 : Nat := 2 ^ 32

namespace board

/-- src/board.rs: the number of rows on the board, including the two
hidden buffer rows. -/
def BOARD_ROWS : Nat := 22

/-- src/board.rs: the number of columns on the board. -/
def BOARD_COLS : Nat := 10

/-- The number of hidden spawn rows at the top of the board (spec §3;
game.rs imports this constant from the board module). -/
def BUFFER_ZONE_ROWS : Nat := 2

end board

namespace block

/-- src/block.rs `BlockType`: the varieties of block in play. -/
inductive BlockType
  | I
  | J
  | O
deriving DecidableEq, Repr, Fintype

/-- src/block.rs `Position`: row-column coordinates for matrix access. -/
abbrev Position := Nat × Nat

/-- src/block.rs `BoundingBox`: the extremal coordinates of a block inside
its orientation matrix. -/
structure BoundingBox where
  top_left : Position
  bottom_right : Position
deriving DecidableEq, Repr

/-- src/block.rs `Rotation`: an orientation matrix (`0`/`1` cells kept as
`Nat`, exactly as printed in the source) plus its bounding box. -/
structure Rotation where
  orientation : List (List Nat)
  bounding_box : BoundingBox
deriving DecidableEq, Repr

/-- The inclusive index range `lo..=hi` used by `BoundingBox::row_range`
and `BoundingBox::col_range`. -/
def rangeIncl (lo hi : Nat) : List Nat :=
  (List.range (hi + 1 - lo)).map (fun k => lo + k)

/-- src/block.rs `Rotation::positions`: walk the bounding box in row-major
order and collect the coordinates whose orientation cell equals `1`. -/
def Rotation.positions (rot : Rotation) : List Position :=
  (rangeIncl rot.bounding_box.top_left.1 rot.bounding_box.bottom_right.1).flatMap
    (fun r =>
      ((rangeIncl rot.bounding_box.top_left.2 rot.bounding_box.bottom_right.2).filter
        (fun c => (rot.orientation.getD r []).getD c 0 == 1)).map (fun c => (r, c)))

/-- src/block.rs `I_ROTATIONS`. -/
def I_ROTATIONS : List Rotation :=
  [ { orientation := [[0, 0, 0, 0], [1, 1, 1, 1], [0, 0, 0, 0], [0, 0, 0, 0]],
      bounding_box := { top_left := (1, 0), bottom_right := (1, 3) } },
    { orientation := [[0, 0, 1, 0], [0, 0, 1, 0], [0, 0, 1, 0], [0, 0, 1, 0]],
      bounding_box := { top_left := (0, 2), bottom_right := (3, 2) } },
    { orientation := [[0, 0, 0, 0], [0, 0, 0, 0], [1, 1, 1, 1], [0, 0, 0, 0]],
      bounding_box := { top_left := (2, 0), bottom_right := (2, 3) } },
    { orientation := [[0, 1, 0, 0], [0, 1, 0, 0], [0, 1, 0, 0], [0, 1, 0, 0]],
      bounding_box := { top_left := (0, 1), bottom_right := (3, 1) } } ]

/-- src/block.rs `J_ROTATIONS`. -/
def J_ROTATIONS : List Rotation :=
  [ { orientation := [[1, 0, 0], [1, 1, 1], [0, 0, 0]],
      bounding_box := { top_left := (0, 0), bottom_right := (1, 2) } },
    { orientation := [[0, 1, 1], [0, 1, 0], [0, 1, 0]],
      bounding_box := { top_left := (0, 1), bottom_right := (2, 2) } },
    { orientation := [[0, 0, 0], [1, 1, 1], [0, 0, 1]],
      bounding_box := { top_left := (1, 0), bottom_right := (2, 2) } },
    { orientation := [[0, 1, 0], [0, 1, 0], [1, 1, 0]],
      bounding_box := { top_left := (0, 0), bottom_right := (2, 1) } } ]

/-- src/block.rs `O_ROTATIONS`: the single O orientation repeated four
times so rotation needs no special case. -/
def O_ROTATIONS : List Rotation :=
  [ { orientation := [[1, 1], [1, 1]],
      bounding_box := { top_left := (0, 0), bottom_right := (1, 1) } },
    { orientation := [[1, 1], [1, 1]],
      bounding_box := { top_left := (0, 0), bottom_right := (1, 1) } },
    { orientation := [[1, 1], [1, 1]],
      bounding_box := { top_left := (0, 0), bottom_right := (1, 1) } },
    { orientation := [[1, 1], [1, 1]],
      bounding_box := { top_left := (0, 0), bottom_right := (1, 1) } } ]

/-- src/block.rs `BlockType::rotations`. -/
def BlockType.rotations : BlockType → List Rotation
  | BlockType.I => I_ROTATIONS
  | BlockType.J => J_ROTATIONS
  | BlockType.O => O_ROTATIONS

/-- Placeholder rotation used as the `getD` default when indexing a
rotation table; every lookup in this development happens at an index
below 4, where the default is irrelevant. -/
def dummyRotation : Rotation :=
  { orientation := [], bounding_box := { top_left := (0, 0), bottom_right := (0, 0) } }

/-- Indexing `block_type.rotations()[i]`. -/
def rotationAt (t : BlockType) (i : Nat) : Rotation :=
  t.rotations.getD i dummyRotation

/-- src/block.rs `Block`: a block type together with its rotation counter
(a `usize` in the source). -/
structure Block where
  block_type : BlockType
  rotation_counter : Nat
deriving DecidableEq, Repr

/-- src/block.rs `Block::new`. -/
def Block.new (t : BlockType) : Block :=
  { block_type := t, rotation_counter := 0 }

/-- src/block.rs `Block::rotation`. -/
def Block.rotation (bl : Block) : Rotation :=
  rotationAt bl.block_type bl.rotation_counter

/-- src/block.rs `Block::width`: `bottom_right.1 - top_left.1 + 1`. -/
def Block.width (bl : Block) : Nat :=
  bl.rotation.bounding_box.bottom_right.2 - bl.rotation.bounding_box.top_left.2 + 1

/-- src/block.rs `Block::height`: `bottom_right.0 - top_left.0 + 1`. -/
def Block.height (bl : Block) : Nat :=
  bl.rotation.bounding_box.bottom_right.1 - bl.rotation.bounding_box.top_left.1 + 1

/-- src/block.rs `Block::rotate_clockwise`:
`rotation_counter = (rotation_counter + 1) % 4`, with the `usize`
addition reduced modulo `2 ^ 64`. -/
def Block.rotate_clockwise (bl : Block) : Block :=
  { bl with rotation_counter := ((bl.rotation_counter + 1) % USIZE) % 4 }

/-- src/block.rs `Block::rotate_counter_clockwise`:
`rotation_counter = (rotation_counter - 1) % 4`, where the source's own
comment states that the subtraction is intended to wrap (two's-complement
`usize` semantics, so decrementing `0` passes through `usize::MAX`), here
written as addition of `2 ^ 64 - 1` modulo `2 ^ 64`. -/
def Block.rotate_counter_clockwise (bl : Block) : Block :=
  { bl with rotation_counter := ((bl.rotation_counter + (USIZE - 1)) % USIZE) % 4 }

end block

namespace rotation

open block (Position)

/-- src/rotation.rs `Rotation`: immutable record of one rotation: offsets,
extent, and the four occupied local positions. -/
structure Rotation where
  vertical_offset : Nat
  horizontal_offset : Nat
  width : Nat
  height : Nat
  positions : List Position
deriving DecidableEq, Repr

/-- src/rotation.rs `RotationIndex`: wrapping counter constrained to
`0..4`. -/
structure RotationIndex where
  idx : Nat
deriving DecidableEq, Repr

/-- src/rotation.rs `RotationIndex::new` (the `Default` value `0`). -/
def RotationIndex.new : RotationIndex := { idx := 0 }

/-- src/rotation.rs `RotationIndex::inc`: `wrapping_add(1) % 4`. -/
def RotationIndex.inc (r : RotationIndex) : RotationIndex :=
  { idx := ((r.idx + 1) % USIZE) % 4 }

/-- src/rotation.rs `RotationIndex::dec`: `wrapping_sub(1) % 4`, the
subtraction written as addition of `2 ^ 64 - 1` modulo `2 ^ 64`. -/
def RotationIndex.dec (r : RotationIndex) : RotationIndex :=
  { idx := ((r.idx + (USIZE - 1)) % USIZE) % 4 }

/-- src/rotation.rs `I_ROTATIONS`. -/
def I_ROTATIONS : List Rotation :=
  [ { vertical_offset := 1, horizontal_offset := 0, width := 4, height := 1,
      positions := [(1, 0), (1, 1), (1, 2), (1, 3)] },
    { vertical_offset := 0, horizontal_offset := 2, width := 1, height := 4,
      positions := [(0, 2), (1, 2), (2, 2), (3, 2)] },
    { vertical_offset := 2, horizontal_offset := 0, width := 4, height := 1,
      positions := [(2, 0), (2, 1), (2, 2), (2, 3)] },
    { vertical_offset := 0, horizontal_offset := 1, width := 1, height := 4,
      positions := [(0, 1), (1, 1), (2, 1), (3, 1)] } ]

/-- src/rotation.rs `J_ROTATIONS`. -/
def J_ROTATIONS : List Rotation :=
  [ { vertical_offset := 0, horizontal_offset := 0, width := 3, height := 2,
      positions := [(0, 0), (1, 0), (1, 1), (1, 2)] },
    { vertical_offset := 0, horizontal_offset := 1, width := 2, height := 3,
      positions := [(0, 1), (0, 2), (1, 1), (2, 1)] },
    { vertical_offset := 1, horizontal_offset := 0, width := 3, height := 2,
      positions := [(1, 0), (1, 1), (1, 2), (2, 2)] },
    { vertical_offset := 0, horizontal_offset := 0, width := 2, height := 3,
      positions := [(0, 1), (1, 1), (2, 0), (2, 1)] } ]

/-- src/rotation.rs `O_ROTATIONS`. -/
def O_ROTATIONS : List Rotation :=
  [ { vertical_offset := 0, horizontal_offset := 0, width := 2, height := 2,
      positions := [(0, 0), (0, 1), (1, 0), (1, 1)] },
    { vertical_offset := 0, horizontal_offset := 0, width := 2, height := 2,
      positions := [(0, 0), (0, 1), (1, 0), (1, 1)] },
    { vertical_offset := 0, horizontal_offset := 0, width := 2, height := 2,
      positions := [(0, 0), (0, 1), (1, 0), (1, 1)] },
    { vertical_offset := 0, horizontal_offset := 0, width := 2, height := 2,
      positions := [(0, 0), (0, 1), (1, 0), (1, 1)] } ]

/-- The rotation.rs table for a block type, mirroring
`block_type.rotations()` on the rotation.rs representation. -/
def tableFor (t : block.BlockType) : List Rotation :=
  match t with
  | block.BlockType.I => I_ROTATIONS
  | block.BlockType.J => J_ROTATIONS
  | block.BlockType.O => O_ROTATIONS

/-- Placeholder record used as the `getD` default when indexing a
rotation.rs table; every lookup happens at an index below 4. -/
def dummyRotation : Rotation :=
  { vertical_offset := 0, horizontal_offset := 0, width := 0, height := 0, positions := [] }

/-- Indexing a rotation.rs table at a `RotationIndex` value. -/
def recordAt (t : block.BlockType) (i : Nat) : Rotation :=
  (tableFor t).getD i dummyRotation

end rotation

namespace block

/-- Helper mirroring `BoundingBox::top_left().0`, the minimum occupied row
of a rotation (rotation.rs calls this the `vertical_offset`). -/
def Rotation.vertical_offset (rot : Rotation) : Nat :=
  rot.bounding_box.top_left.1

/-- Helper mirroring `BoundingBox::top_left().1`, the minimum occupied
column of a rotation (rotation.rs calls this the `horizontal_offset`). -/
def Rotation.horizontal_offset (rot : Rotation) : Nat :=
  rot.bounding_box.top_left.2

/-- The bounding-box width, as computed by `Block::width` in src/block.rs. -/
def Rotation.width (rot : Rotation) : Nat :=
  rot.bounding_box.bottom_right.2 - rot.bounding_box.top_left.2 + 1

/-- The bounding-box height, as computed by `Block::height` in
src/block.rs. -/
def Rotation.height (rot : Rotation) : Nat :=
  rot.bounding_box.bottom_right.1 - rot.bounding_box.top_left.1 + 1

/-- The two's-complement `isize → usize` cast used when an active block's
signed column is reinterpreted for the bounds check in
`Board::collides`: negative values wrap to values just below `2 ^ 64`. -/
def usizeOfInt (z : Int) : Nat :=
  (z % (USIZE : Int)).toNat

/-- Modelled from the spec: `ActiveBlock` (the active piece) is referenced
by src/board.rs and src/game.rs but its definition is not among the
sources.  Spec §3/§4.4: a block type, a rotation index bounded to `0..4`,
and the board-space anchor of the local coordinate space, whose row is an
unsigned `usize` and whose column is *signed* (`isize`) so the piece may
overhang the left edge. -/
structure ActiveBlock where
  block_type : BlockType
  rotation_index : Fin 4
  top : Nat
  left : Int
deriving DecidableEq, Repr

/-- The block.rs rotation record selected by the active block's current
rotation index. -/
def ActiveBlock.rotation (a : ActiveBlock) : Rotation :=
  rotationAt a.block_type a.rotation_index.val

/-- Modelled from the spec (§4.4 `new`): rotation index 0; the anchor row
places the piece at the bottom of the two-row buffer zone
(`top = BUFFER_ZONE_ROWS − vertical_offset − height`) and the anchor
column is `BOARD_COLS/2 − horizontal_offset − width/2`. -/
def ActiveBlock.new (t : BlockType) : ActiveBlock :=
  let rot0 := rotationAt t 0
  { block_type := t
    rotation_index := 0
    top := board.BUFFER_ZONE_ROWS - rot0.vertical_offset - rot0.height
    left := (board.BOARD_COLS / 2 : Nat) - (rot0.horizontal_offset : Int) -
      ((rot0.width / 2 : Nat) : Int) }

/-- Modelled from the spec (§4.4 `cells_on_board`): the four board-space
cells `(top + local_row, left + local_col)`, the signed column cast to
`usize` with wrapping. -/
def ActiveBlock.board_positions (a : ActiveBlock) : List (Nat × Nat) :=
  a.rotation.positions.map (fun rc => (a.top + rc.1, usizeOfInt (a.left + rc.2)))

/-- Modelled from the spec (§4.4): translate down by one row, saturating
`usize` arithmetic. -/
def ActiveBlock.move_down (a : ActiveBlock) : ActiveBlock :=
  { a with top := min (a.top + 1) (USIZE - 1) }

/-- Modelled from the spec (§4.4): translate up by one row, saturating
`usize` arithmetic (`Nat` subtraction saturates at 0). -/
def ActiveBlock.move_up (a : ActiveBlock) : ActiveBlock :=
  { a with top := a.top - 1 }

/-- Modelled from the spec (§4.4): translate left by one column on the
signed axis. -/
def ActiveBlock.move_left (a : ActiveBlock) : ActiveBlock :=
  { a with left := a.left - 1 }

/-- Modelled from the spec (§4.4): translate right by one column on the
signed axis. -/
def ActiveBlock.move_right (a : ActiveBlock) : ActiveBlock :=
  { a with left := a.left + 1 }

/-- Modelled from the spec (§4.4): bump the rotation index by +1 modulo 4
(`Fin 4` addition wraps). -/
def ActiveBlock.rotate_clockwise (a : ActiveBlock) : ActiveBlock :=
  { a with rotation_index := a.rotation_index + 1 }

/-- Modelled from the spec (§4.4): bump the rotation index by −1 modulo 4
with wrapping arithmetic (−1 ≡ +3). -/
def ActiveBlock.rotate_counter_clockwise (a : ActiveBlock) : ActiveBlock :=
  { a with rotation_index := a.rotation_index + 3 }

end block

namespace board

open block (ActiveBlock)

/-- A board row: `BOARD_COLS` cells, `true` for the source's `1`. -/
abbrev Row := List Bool

/-- src/board.rs `Board`: the play space as a matrix of cells. -/
abbrev Board := List Row

/-- The all-empty row, `[0; BOARD_COLS]`. -/
def emptyRow : Row := List.replicate BOARD_COLS false

/-- src/board.rs `Board::new`: the empty (default) board. -/
def Board.new : Board := List.replicate BOARD_ROWS emptyRow

/-- The test `row.contains(&1)` of src/board.rs: some cell is occupied. -/
def rowOccupied (r : Row) : Bool := r.any (fun c => c)

/-- The test `row.contains(&0)` of src/board.rs: some cell is empty, i.e.
the row is incomplete. -/
def rowIncomplete (r : Row) : Bool := r.any (fun c => !c)

/-- The cell read `self.0[r][c]`, with defaults that are only reached out
of bounds (the source short-circuits its bounds checks first). -/
def getCell (b : Board) (r c : Nat) : Bool := (b.getD r emptyRow).getD c false

/-- The first loop of `Board::clear_lines`: the index of the highest
(topmost) occupied row, `0` if the board is entirely empty.  The source
stores it in an `isize`. -/
def highestOccupiedRow (b : Board) : Int :=
  if b.any rowOccupied then ((b.findIdx rowOccupied : Nat) : Int) else 0

/-- The adjacent-row exchange `self.0.swap(j, k)`. -/
def swapRows (b : Board) (j k : Nat) : Board :=
  (b.set j (b.getD k emptyRow)).set k (b.getD j emptyRow)

/-- The inner loop of `Board::clear_lines`:
`for j in (hi + 1..=i).rev() { self.0.swap(j, j - 1) }`, which bubbles the
row at index `i` up to index `hi`, shifting rows `hi..i` down by one. -/
def bubbleUp (b : Board) (hi i : Nat) : Board :=
  if hi + 1 ≤ i then bubbleUp (swapRows b i (i - 1)) hi (i - 1) else b
termination_by i - hi
decreasing_by omega

/-- The main loop of `Board::clear_lines`, walking `i` up the board (in an
`isize`) while `i >= highest_occupied_row`: incomplete rows are skipped;
complete rows are emptied (`fill(0)`), counted, and bubbled up to the
`highest_occupied_row` boundary, which then moves down by one. -/
def clearLoop (b : Board) (i hoc : Int) (count : Nat) : Board × Nat :=
  if _h : hoc ≤ i then
    if rowIncomplete (b.getD i.toNat emptyRow) then
      clearLoop b (i - 1) hoc count
    else
      clearLoop (bubbleUp (b.set i.toNat emptyRow) hoc.toNat i.toNat) i (hoc + 1) (count + 1)
  else (b, count)
termination_by (i + 1 - hoc).toNat
decreasing_by all_goals omega

/-- src/board.rs `Board::clear_lines`: clear completed rows, consolidate
the board, and return the number of lines cleared. -/
def clear_lines (b : Board) : Board × Nat :=
  clearLoop b ((BOARD_ROWS : Int) - 1) (highestOccupiedRow b) 0

/-- src/board.rs `Board::collides`: some cell of the active block is out
of bounds or on an occupied board cell. -/
def collides (b : Board) (a : ActiveBlock) : Bool :=
  a.board_positions.any (fun pos =>
    decide (BOARD_ROWS ≤ pos.1) || decide (BOARD_COLS ≤ pos.2) || getCell b pos.1 pos.2)

/-- The single cell write `self.0[r][c] = 1`. -/
def setCell (b : Board) (r c : Nat) : Board :=
  b.set r ((b.getD r emptyRow).set c true)

/-- src/board.rs `Board::fix_active_block`: write the block's four cells
into the board as occupied. -/
def fix_active_block (b : Board) (a : ActiveBlock) : Board :=
  a.board_positions.foldl (fun acc pos => setCell acc pos.1 pos.2) b

/-- src/board.rs `Board::buffer_zone_occupied`: the lower buffer row
(row 1) contains an occupied cell. -/
def buffer_zone_occupied (b : Board) : Bool :=
  rowOccupied (b.getD 1 emptyRow)

/-- A structurally well-formed board: `BOARD_ROWS` rows of `BOARD_COLS`
cells, as guaranteed by the fixed-size array type `[[u8; 10]; 22]`. -/
def WF (b : Board) : Prop :=
  b.length = BOARD_ROWS ∧ ∀ r ∈ b, r.length = BOARD_COLS

instance (b : Board) : Decidable (WF b) := by
  unfold WF
  infer_instance

end board

/-- src/game.rs `QUEUE_LEN`: the fixed look-ahead queue length. -/
def QUEUE_LEN : Nat := 3

namespace game

open block (BlockType ActiveBlock)
open board (Board)

/-- src/game.rs `Direction`. -/
inductive Direction
  | Left
  | Right
deriving DecidableEq, Repr, Fintype

/-- src/game.rs `Event`: the only externally accepted inputs. -/
inductive Event
  | Quit
  | Move (d : Direction)
  | Rotate (d : Direction)
  | Gravity
deriving DecidableEq, Repr, Fintype

/-- src/game.rs `GameState`.  The `BlockGenerator` (an opaque uniform
sampler over the block types) is modelled as an infinite sequence
`gen : Nat → BlockType` together with the index `genIdx` of the next
sample to be consumed. -/
structure GameState where
  score : Nat
  board : Board
  gen : Nat → BlockType
  genIdx : Nat
  active_block : ActiveBlock
  queue : List BlockType
  game_over : Bool

/-- src/game.rs `GameState::new`: draw one block for the active piece,
then fill the queue with `QUEUE_LEN` further blocks. -/
def GameState.new (gen : Nat → BlockType) : GameState :=
  { score := 0
    board := board.Board.new
    gen := gen
    genIdx := 1 + QUEUE_LEN
    active_block := ActiveBlock.new (gen 0)
    queue := (List.range QUEUE_LEN).map (fun j => gen (1 + j))
    game_over := false }

/-- src/game.rs `GameState::load_next_active_block`: pop the queue head as
the new active block and push a freshly generated block; `none` models the
`expect` panic on an empty queue. -/
def load_next_active_block (gs : GameState) : Option GameState :=
  match gs.queue with
  | [] => none
  | t :: rest =>
      some { gs with
        active_block := ActiveBlock.new t
        queue := rest ++ [gs.gen gs.genIdx]
        genIdx := gs.genIdx + 1 }

/-- src/game.rs `GameState::handle_landing`: fix the active block, clear
lines and add them to the `u32` score, then either set `game_over` (buffer
zone occupied) or load the next block from the queue. -/
def handle_landing (gs : GameState) : Option GameState :=
  let b1 := board.fix_active_block gs.board gs.active_block
  let cleared := board.clear_lines b1
  let gs1 := { gs with board := cleared.1, score := (gs.score + cleared.2) % U32 }
  if board.buffer_zone_occupied cleared.1 then
    some { gs1 with game_over := true }
  else
    load_next_active_block gs1

/-- src/game.rs `GameState::handle_gravity`: move the active block down;
on collision undo with `move_up` and run the landing procedure. -/
def handle_gravity (gs : GameState) : Option GameState :=
  let moved := gs.active_block.move_down
  if board.collides gs.board moved then
    handle_landing { gs with active_block := moved.move_up }
  else
    some { gs with active_block := moved }

/-- src/game.rs `GameState::handle_move`: tentative horizontal translate,
undone if it collides. -/
def handle_move (gs : GameState) (d : Direction) : GameState :=
  let moved :=
    match d with
    | Direction.Left => gs.active_block.move_left
    | Direction.Right => gs.active_block.move_right
  if board.collides gs.board moved then
    { gs with active_block :=
        match d with
        | Direction.Left => moved.move_right
        | Direction.Right => moved.move_left }
  else
    { gs with active_block := moved }

/-- src/game.rs `GameState::handle_rotate`: tentative rotation, undone if
it collides. -/
def handle_rotate (gs : GameState) (d : Direction) : GameState :=
  let moved :=
    match d with
    | Direction.Left => gs.active_block.rotate_counter_clockwise
    | Direction.Right => gs.active_block.rotate_clockwise
  if board.collides gs.board moved then
    { gs with active_block :=
        match d with
        | Direction.Left => moved.rotate_clockwise
        | Direction.Right => moved.rotate_counter_clockwise }
  else
    { gs with active_block := moved }

/-- src/game.rs `GameState::update`: a no-op (returning the state
unchanged) once the game is over; otherwise dispatch on the event.  The
catch-all arm of the source match is `unimplemented!()` — reached exactly
by `Event::Quit` — and is modelled as `none` (a panic). -/
def update (gs : GameState) (e : Event) : Option GameState :=
  if gs.game_over then some gs
  else
    match e with
    | Event.Gravity => handle_gravity gs
    | Event.Move d => some (handle_move gs d)
    | Event.Rotate d => some (handle_rotate gs d)
    | Event.Quit => none

/-- The states of the core reachable from construction by sequences of
(non-panicking) `update` calls. -/
inductive Reachable : GameState → Prop
  | init (gen : Nat → BlockType) : Reachable (GameState.new gen)
  | step {gs gs' : GameState} {e : Event} :
      Reachable gs → update gs e = some gs' → Reachable gs'

/-- The inductive invariant carried by every reachable game state: the
board keeps its 22×10 shape, the queue keeps its length, the buffer-zone
rows satisfy the debug invariant of `buffer_zone_occupied` (upper row
occupied only if the lower row is), and while the game is not over the
active block does not collide with the board. -/
def Inv (gs : GameState) : Prop :=
  gs.board.length = board.BOARD_ROWS ∧
  (∀ r ∈ gs.board, r.length = board.BOARD_COLS) ∧
  gs.queue.length = QUEUE_LEN ∧
  (board.rowOccupied (gs.board.getD 1 board.emptyRow) = false →
    board.rowOccupied (gs.board.getD 0 board.emptyRow) = false) ∧
  (gs.game_over = false → board.collides gs.board gs.active_block = false)

end game

namespace timer

/-- src/timer.rs `Tick`: per-subsystem flags of one game tick.  The
`gravity` flag is translated from the source; `input` is modelled from the
spec (§4.6), the `input_ticks` machinery being absent from src/timer.rs
although its caller (src/main.rs) configures it and reads `tick.input`. -/
structure Tick where
  gravity : Bool
  input : Bool
deriving DecidableEq, Repr

/-- src/timer.rs `GameTimer`, abstracted over the wall-clock
`IntervalTimer`: the modular tick counters.  `input_ticks` is modelled
from the spec (§4.6). -/
structure GameTimer where
  gravity_ticks : Nat
  input_ticks : Nat
  tick_count : Nat
deriving DecidableEq, Repr

/-- src/timer.rs `GameTimer::new` (counter starts at zero). -/
def GameTimer.new (gravity_ticks input_ticks : Nat) : GameTimer :=
  { gravity_ticks := gravity_ticks, input_ticks := input_ticks, tick_count := 0 }

/-- src/timer.rs `GameTimer::update`, with the inner
`IntervalTimer::update` result supplied as the boolean `ticked`: `none`
when the interval timer did not tick; otherwise the `u64` tick counter is
incremented with wrapping and the sub-tick flags are set when the counter
is a multiple of the corresponding period (`is_multiple_of`, which for a
zero period holds only for a zero counter — matching `x % 0 = x` on
`Nat`).  The `input` flag is modelled from the spec (§4.6). -/
def GameTimer.update (t : GameTimer) (ticked : Bool) : GameTimer × Option Tick :=
  if !ticked then (t, none)
  else
    let count := (t.tick_count + 1) % USIZE
    ({ t with tick_count := count },
     some { gravity := count % t.gravity_ticks == 0, input := count % t.input_ticks == 0 })

/-- Drive `GameTimer::update` over a run, one boolean per call recording
whether the interval timer ticked; collects the emitted `Tick`s. -/
def runTimer (t : GameTimer) : List Bool → GameTimer × List Tick
  | [] => (t, [])
  | b :: bs =>
      let step := t.update b
      let rest := runTimer step.1 bs
      (rest.1, step.2.toList ++ rest.2)

end timer

/-! Concrete boards, pieces and game states used to instantiate the
theorems below. -/

namespace board

/-- A fully occupied row. -/
def fullRow : Row := List.replicate BOARD_COLS true

/-- The partial row `[0,1,0,1,0,1,0,1,0,1]` of the spec's scenarios. -/
def rowAltA : Row :=
  [false, true, false, true, false, true, false, true, false, true]

/-- The partial row `[1,0,1,0,1,0,1,0,1,0]` of the spec's scenarios. -/
def rowAltB : Row :=
  [true, false, true, false, true, false, true, false, true, false]

/-- The spec's sandwich scenario: rows 18 and 20 partial, rows 19 and 21
full, everything above empty. -/
def sandwichBoard : Board :=
  List.replicate 18 emptyRow ++ [rowAltA, fullRow, rowAltB, fullRow]

/-- The fully occupied board. -/
def filledBoard : Board := List.replicate BOARD_ROWS fullRow

/-- A row whose middle two cells (columns 4 and 5) are occupied — one row
of a landed O block. -/
def oRow : Row := [false, false, false, false, true, true, false, false, false, false]

/-- The board left after an O block lands on the floor of the empty
board. -/
def landedBoard : Board := List.replicate 20 emptyRow ++ [oRow, oRow]

end board

namespace game

/-- A degenerate generator that always produces the O block. -/
def constGen : Nat → block.BlockType := fun _ => block.BlockType.O

/-- The freshly constructed game seeded by `constGen`. -/
def exampleState : GameState := GameState.new constGen

/-- The same game with the game-over flag raised. -/
def exampleOverState : GameState := { exampleState with game_over := true }

/-- A game whose active O block rests on the floor, so the next gravity
event lands it. -/
def landingState : GameState :=
  { score := 0
    board := board.Board.new
    gen := constGen
    genIdx := 1 + QUEUE_LEN
    active_block :=
      { block_type := block.BlockType.O, rotation_index := 0, top := 20, left := 4 }
    queue := [block.BlockType.I, block.BlockType.J, block.BlockType.O]
    game_over := false }

end game

/-! The claims, formalised.  Throughout, `block.Rotation.positions` and
the board/game/timer operations refer to the embeddings above. -/

open block board game timer

/-- C10: for every block type and rotation index, the cell positions
computed from block.rs's orientation matrix restricted to its bounding
box coincide with the explicit positions array of rotation.rs, the
bounding-box width and height (`bottom_right − top_left + 1`) coincide
with the stored width and height, and the bounding box's top-left corner
is rotation.rs's `(vertical_offset, horizontal_offset)`. -/
theorem block_rotation_tables_agree :
    ∀ (t : BlockType) (i : Fin 4),
      (rotationAt t i.val).positions = (rotation.recordAt t i.val).positions ∧
      (rotationAt t i.val).width = (rotation.recordAt t i.val).width ∧
      (rotationAt t i.val).height = (rotation.recordAt t i.val).height ∧
      (rotationAt t i.val).bounding_box.top_left =
        ((rotation.recordAt t i.val).vertical_offset,
         (rotation.recordAt t i.val).horizontal_offset) := by
  decide

/-- C5: for every block and starting rotation index in `0..4`,
`rotate_clockwise` adds one and `rotate_counter_clockwise` subtracts one
modulo 4 with wrapping arithmetic (subtracting from 0 yields 3 rather
than an error), four rotations in either direction restore the starting
index, and the same holds of rotation.rs's `RotationIndex`. -/
theorem rotation_counter_wraps_mod_four (t : BlockType) (c : Nat) (hc : c < 4) :
    ((Block.mk t c).rotate_clockwise).rotation_counter = (c + 1) % 4 ∧
    ((Block.mk t c).rotate_counter_clockwise).rotation_counter = (c + 3) % 4 ∧
    ((Block.mk t 0).rotate_counter_clockwise).rotation_counter = 3 ∧
    ((((Block.mk t c).rotate_clockwise).rotate_clockwise).rotate_clockwise).rotate_clockwise
      = Block.mk t c ∧
    ((((Block.mk t c).rotate_counter_clockwise).rotate_counter_clockwise).rotate_counter_clockwise).rotate_counter_clockwise
      = Block.mk t c ∧
    ((rotation.RotationIndex.mk c).inc).idx = (c + 1) % 4 ∧
    ((rotation.RotationIndex.mk c).dec).idx = (c + 3) % 4 ∧
    ((((rotation.RotationIndex.mk c).inc).inc).inc).inc = rotation.RotationIndex.mk c ∧
    ((((rotation.RotationIndex.mk c).dec).dec).dec).dec = rotation.RotationIndex.mk c := by
  cases t <;> interval_cases c <;> decide

/-- Witness for `rotation_counter_wraps_mod_four` at the I block and
index 0. -/
theorem rotation_counter_wraps_mod_four_witness :
    ((Block.mk BlockType.I 0).rotate_counter_clockwise).rotation_counter = 3 :=
  (rotation_counter_wraps_mod_four BlockType.I 0 (by decide)).2.2.1

/-- C6: once `game_over` is set, `update` returns normally and leaves the
whole state unchanged, whatever the event. -/
theorem update_noop_after_game_over (gs : GameState) (e : Event)
    (h : gs.game_over = true) : update gs e = some gs := by
  simp [update, h]

/-- Witness for `update_noop_after_game_over` on a concrete finished
game. -/
theorem update_noop_after_game_over_witness :
    update exampleOverState Event.Gravity = some exampleOverState :=
  update_noop_after_game_over exampleOverState Event.Gravity rfl

/-- C4 counterexample: on a freshly constructed (not game-over) state,
`update Quit` does not return normally — it reaches the source's
`unimplemented!()` arm, modelled as `none` — so it neither preserves the
state observably nor returns a quit sentinel. -/
theorem update_quit_panics_cex :
    exampleState.game_over = false ∧ update exampleState Event.Quit = none :=
  ⟨rfl, rfl⟩

/-- C4 (amended): for every state with `game_over == false`, `update
Quit` panics (the catch-all `unimplemented!()` arm); the core offers no
quit sentinel, the host instead intercepts `Quit` at the key-mapping
layer before calling `update`. -/
theorem update_quit_panics (gs : GameState) (h : gs.game_over = false) :
    update gs Event.Quit = none := by
  simp [update, h]

/-- Witness for `update_quit_panics` on a concrete fresh game. -/
theorem update_quit_panics_witness : update exampleState Event.Quit = none :=
  update_quit_panics exampleState rfl

/-- Running the game timer from tick counter `c` over a list of interval
outcomes: the counter advances by the number of `true` outcomes (no `u64`
wrap below `USIZE`), one `Tick` is emitted per `true`, and the gravity
and input flags fire on the multiples of their periods crossed by the
counter. -/
lemma runTimer_spec (g i c : Nat) (bs : List Bool) (h : c + bs.count true < USIZE) :
    (runTimer (GameTimer.mk g i c) bs).1 = GameTimer.mk g i (c + bs.count true) ∧
    (runTimer (GameTimer.mk g i c) bs).2.length = bs.count true ∧
    ((runTimer (GameTimer.mk g i c) bs).2.filter (fun t => t.gravity)).length
      = (c + bs.count true) / g - c / g ∧
    ((runTimer (GameTimer.mk g i c) bs).2.filter (fun t => t.input)).length
      = (c + bs.count true) / i - c / i := by
  induction bs generalizing c with
  | nil => simp [runTimer]
  | cons b bs ih =>
    cases b with
    | false =>
      have hcount : (false :: bs).count true = bs.count true := by simp
      rw [hcount] at h ⊢
      have hrec := ih c h
      simpa [runTimer, GameTimer.update] using hrec
    | true =>
      have hcount : (true :: bs).count true = bs.count true + 1 := by simp
      rw [hcount] at h ⊢
      have hc1 : (c + 1) + bs.count true < USIZE := by omega
      have hmod : (c + 1) % USIZE = c + 1 := Nat.mod_eq_of_lt (by omega)
      have hrec := ih (c + 1) hc1
      obtain ⟨h1, h2, h3, h4⟩ := hrec
      have hmono_g : (c + 1) / g ≤ (c + 1 + bs.count true) / g :=
        Nat.div_le_div_right (by omega)
      have hmono_i : (c + 1) / i ≤ (c + 1 + bs.count true) / i :=
        Nat.div_le_div_right (by omega)
      have hadd : c + 1 + bs.count true = c + (bs.count true + 1) := by omega
      rw [hadd] at h1 h3 h4 hmono_g hmono_i
      have hsucc_g : (c + 1) / g = c / g + if g ∣ (c + 1) then 1 else 0 := Nat.succ_div c g
      have hsucc_i : (c + 1) / i = c / i + if i ∣ (c + 1) then 1 else 0 := Nat.succ_div c i
      simp only [runTimer, GameTimer.update, Bool.not_true, Bool.false_eq_true, if_false,
        hmod, Option.toList_some, List.singleton_append]
      refine ⟨?_, ?_, ?_, ?_⟩
      · exact h1
      · simp [h2]
      · by_cases hg : (c + 1) % g = 0
        · rw [if_pos (Nat.dvd_iff_mod_eq_zero.mpr hg)] at hsucc_g
          simp only [List.filter_cons, hg, beq_self_eq_true, if_pos]
          simp only [List.length_cons, h3]
          omega
        · rw [if_neg (fun hd => hg (Nat.dvd_iff_mod_eq_zero.mp hd))] at hsucc_g
          have hbeq : (((c + 1) % g == 0) = true) = False := by simp [hg]
          simp only [List.filter_cons, hbeq, if_false, h3]
          omega
      · by_cases hi : (c + 1) % i = 0
        · rw [if_pos (Nat.dvd_iff_mod_eq_zero.mpr hi)] at hsucc_i
          simp only [List.filter_cons, hi, beq_self_eq_true, if_pos]
          simp only [List.length_cons, h4]
          omega
        · rw [if_neg (fun hd => hi (Nat.dvd_iff_mod_eq_zero.mp hd))] at hsucc_i
          have hbeq : (((c + 1) % i == 0) = true) = False := by simp [hi]
          simp only [List.filter_cons, hbeq, if_false, h4]
          omega

/-- C9: for a fresh `GameTimer` with gravity period `G` and input period
`I`, over any run of `update` calls in which the interval timer ticks `K`
times (producing `K` `Some(Tick)` results), the tick counter has
incremented by one per tick — reaching `K` — and exactly `⌊K/G⌋` of the
emitted ticks have `gravity == true` and exactly `⌊K/I⌋` have
`input == true`.  The `input` flag is modelled from the spec, the
`input_ticks` machinery being absent from src/timer.rs. -/
theorem game_timer_tick_counts (G I : Nat) (bs : List Bool)
    (hK : bs.count true < USIZE) :
    (runTimer (GameTimer.new G I) bs).2.length = bs.count true ∧
    (runTimer (GameTimer.new G I) bs).1.tick_count = bs.count true ∧
    ((runTimer (GameTimer.new G I) bs).2.filter (fun t => t.gravity)).length
      = bs.count true / G ∧
    ((runTimer (GameTimer.new G I) bs).2.filter (fun t => t.input)).length
      = bs.count true / I := by
  obtain ⟨h1, h2, h3, h4⟩ := runTimer_spec G I 0 bs (by omega)
  have hnew : GameTimer.new G I = GameTimer.mk G I 0 := rfl
  rw [hnew, h1, h2, h3, h4]
  simp

/-- Witness for `game_timer_tick_counts`: periods 3 and 2 over a run with
six interval ticks give six emitted ticks, two gravity ticks and three
input ticks. -/
theorem game_timer_tick_counts_witness :
    (runTimer (GameTimer.new 3 2) [true, true, false, true, true, true, true]).2.length = 6 ∧
    ((runTimer (GameTimer.new 3 2)
        [true, true, false, true, true, true, true]).2.filter (fun t => t.gravity)).length = 2 ∧
    ((runTimer (GameTimer.new 3 2)
        [true, true, false, true, true, true, true]).2.filter (fun t => t.input)).length = 3 := by
  obtain ⟨h1, _h2, h3, h4⟩ :=
    game_timer_tick_counts 3 2 [true, true, false, true, true, true, true] (by decide)
  refine ⟨?_, ?_, ?_⟩
  · rw [h1]; decide
  · rw [h3]; decide
  · rw [h4]; decide

/-- Every local position of every rotation lies within the 4×4 local
space (in fact within `[0,4) × [0,4)`). -/
lemma positions_bound :
    ∀ (t : BlockType) (i : Fin 4), ∀ rc ∈ (rotationAt t i.val).positions,
      rc.1 ≤ 3 ∧ rc.2 ≤ 3 := by
  decide

/-- C7: `collides` returns true iff at least one of the piece's four
board-space cells — signed coordinates `(top + r, left + c)` — lies
outside `[0, BOARD_ROWS) × [0, BOARD_COLS)` (rows are unsigned, so only
the upper row bound can fail; a column fails by being negative or at
least `BOARD_COLS`) or lies on an occupied board cell.  The hypotheses
confine the signed anchor column to the `isize` range, under which the
wrapping signed-to-unsigned cast rejects negative columns as intended. -/
theorem collides_iff (b : Board) (a : ActiveBlock)
    (h1 : -(2 ^ 63 : Int) ≤ a.left) (h2 : a.left < 2 ^ 63) :
    collides b a = true ↔
      ∃ rc ∈ a.rotation.positions,
        BOARD_ROWS ≤ a.top + rc.1 ∨ (a.left + rc.2 : Int) < 0 ∨
        (BOARD_COLS : Int) ≤ a.left + rc.2 ∨
        getCell b (a.top + rc.1) (a.left + rc.2).toNat = true := by
  unfold collides ActiveBlock.board_positions
  rw [List.any_map, List.any_eq_true]
  apply exists_congr
  intro rc
  apply and_congr_right
  intro hmem
  have hb := (positions_bound a.block_type a.rotation_index rc hmem).2
  simp only [Function.comp_apply, Bool.or_eq_true, decide_eq_true_eq]
  by_cases hneg : a.left + (rc.2 : Int) < 0
  · have hwrap : BOARD_COLS ≤ usizeOfInt (a.left + rc.2) := by
      unfold usizeOfInt USIZE BOARD_COLS
      omega
    constructor
    · intro _
      exact Or.inr (Or.inl hneg)
    · intro _
      exact Or.inl (Or.inr hwrap)
  · push_neg at hneg
    have hwrap : usizeOfInt (a.left + rc.2) = (a.left + rc.2).toNat := by
      unfold usizeOfInt USIZE
      omega
    rw [hwrap]
    constructor
    · rintro ((h | h) | h)
      · exact Or.inl h
      · refine Or.inr (Or.inr (Or.inl ?_))
        unfold BOARD_COLS at h ⊢
        omega
      · exact Or.inr (Or.inr (Or.inr h))
    · rintro (h | h | h | h)
      · exact Or.inl (Or.inl h)
      · omega
      · refine Or.inl (Or.inr ?_)
        unfold BOARD_COLS at h ⊢
        omega
      · exact Or.inr h

/-- Witness for `collides_iff`: the freshly spawned I piece on the empty
board. -/
theorem collides_iff_witness :
    collides board.Board.new (ActiveBlock.new BlockType.I) = true ↔
      ∃ rc ∈ (ActiveBlock.new BlockType.I).rotation.positions,
        BOARD_ROWS ≤ (ActiveBlock.new BlockType.I).top + rc.1 ∨
        ((ActiveBlock.new BlockType.I).left + rc.2 : Int) < 0 ∨
        (BOARD_COLS : Int) ≤ (ActiveBlock.new BlockType.I).left + rc.2 ∨
        getCell board.Board.new ((ActiveBlock.new BlockType.I).top + rc.1)
          ((ActiveBlock.new BlockType.I).left + rc.2).toNat = true :=
  collides_iff board.Board.new (ActiveBlock.new BlockType.I) (by decide) (by decide)

end Tetrust

namespace Tetrust
namespace board

lemma list_take_set {α : Type} (l : List α) (m n : Nat) (a : α) (h : m ≤ n) :
    (l.set n a).take m = l.take m := by
  rcases Nat.lt_or_ge n l.length with h1 | h1
  · rw [List.set_eq_take_append_cons_drop, if_pos h1, List.take_append_eq_append_take,
      List.length_take]
    have h2 : m - min n l.length = 0 := by omega
    rw [h2, List.take_zero, List.append_nil, List.take_take, Nat.min_eq_left h]
  · rw [List.set_eq_of_length_le h1]

lemma list_getD_set_self {α : Type} (l : List α) (n : Nat) (a d : α) (h : n < l.length) :
    (l.set n a).getD n d = a := by
  simp [List.getD_eq_getElem?_getD, List.getElem?_set_self, h]

lemma list_getD_set_ne {α : Type} (l : List α) (m n : Nat) (a d : α) (h : n ≠ m) :
    (l.set n a).getD m d = l.getD m d := by
  simp [List.getD_eq_getElem?_getD, List.getElem?_set_ne h]

lemma list_drop_set_self {α : Type} (l : List α) (n : Nat) (a : α) (h : n < l.length) :
    (l.set n a).drop n = a :: l.drop (n + 1) := by
  rw [List.set_eq_take_append_cons_drop, if_pos h]
  rw [List.drop_append_eq_append_drop, List.length_take]
  have h2 : n - min n l.length = 0 := by omega
  have h3 : (l.take n).drop n = [] := List.drop_eq_nil_of_le (by simp)
  rw [h2, h3, List.drop_zero, List.nil_append]

lemma list_take_getD_drop {α : Type} (l : List α) (n : Nat) (d : α) (h : n < l.length) :
    l.take n ++ l.getD n d :: l.drop (n + 1) = l := by
  rw [List.getD_eq_getElem l d h]
  rw [List.getElem_cons_drop]
  exact List.take_append_drop n l

lemma list_take_succ_getD {α : Type} (l : List α) (n : Nat) (d : α) (h : n < l.length) :
    l.take (n + 1) = l.take n ++ [l.getD n d] := by
  rw [List.take_succ, List.getElem?_eq_getElem h, List.getD_eq_getElem l d h]
  rfl

end board
end Tetrust

namespace Tetrust
namespace board

lemma swapRows_length (b : Board) (j k : Nat) : (swapRows b j k).length = b.length := by
  simp [swapRows]

lemma bubbleUp_length (b : Board) (hi i : Nat) : (bubbleUp b hi i).length = b.length := by
  rw [bubbleUp.eq_def]
  by_cases h : hi + 1 ≤ i
  · rw [if_pos h]
    rw [bubbleUp_length (swapRows b i (i - 1)) hi (i - 1), swapRows_length]
  · rw [if_neg h]
termination_by i - hi
decreasing_by omega

lemma bubbleUp_spec (hi : Nat) :
    ∀ (k : Nat) (b : Board), hi + k < b.length →
      bubbleUp b hi (hi + k) =
        b.take hi ++ b.getD (hi + k) emptyRow ::
          ((b.take (hi + k)).drop hi ++ b.drop (hi + k + 1)) := by
  intro k
  induction k with
  | zero =>
    intro b hlen
    rw [bubbleUp.eq_def, if_neg (by omega : ¬ hi + 1 ≤ hi + 0)]
    rw [Nat.add_zero] at hlen ⊢
    have hseg : (b.take hi).drop hi = [] := List.drop_eq_nil_of_le (by simp)
    rw [hseg, List.nil_append]
    exact (list_take_getD_drop b hi emptyRow hlen).symm
  | succ k ih =>
    intro b hlen
    rw [bubbleUp.eq_def, if_pos (by omega : hi + 1 ≤ hi + (k + 1))]
    have hstep : hi + (k + 1) - 1 = hi + k := by omega
    rw [hstep]
    have hlen1 : hi + k < (swapRows b (hi + (k + 1)) (hi + k)).length := by
      rw [swapRows_length]; omega
    rw [ih (swapRows b (hi + (k + 1)) (hi + k)) hlen1]
    have hlb : hi + (k + 1) < b.length := hlen
    have hlb1 : hi + (k + 1) < (b.set (hi + (k + 1)) (b.getD (hi + k) emptyRow)).length := by
      simpa using hlb
    have hlb2 : hi + k < (b.set (hi + (k + 1)) (b.getD (hi + k) emptyRow)).length := by
      simpa using (by omega : hi + k < b.length)
    -- piece 1: the `take hi` prefix is untouched
    have p1 : (swapRows b (hi + (k + 1)) (hi + k)).take hi = b.take hi := by
      unfold swapRows
      rw [list_take_set _ hi (hi + k) _ (by omega), list_take_set _ hi (hi + (k + 1)) _ (by omega)]
    -- piece 2: the element now at hi + k is the original element at hi + (k+1)
    have p2 : (swapRows b (hi + (k + 1)) (hi + k)).getD (hi + k) emptyRow
        = b.getD (hi + (k + 1)) emptyRow := by
      unfold swapRows
      rw [list_getD_set_self _ (hi + k) _ _ hlb2]
    -- piece 3: the segment take (hi+k) / drop hi is untouched
    have p3 : ((swapRows b (hi + (k + 1)) (hi + k)).take (hi + k)).drop hi
        = (b.take (hi + k)).drop hi := by
      unfold swapRows
      rw [list_take_set _ (hi + k) (hi + k) _ (by omega),
        list_take_set _ (hi + k) (hi + (k + 1)) _ (by omega)]
    -- piece 4: the tail from hi + k + 1 is the displaced element then the old tail
    have p4 : (swapRows b (hi + (k + 1)) (hi + k)).drop (hi + k + 1)
        = b.getD (hi + k) emptyRow :: b.drop (hi + (k + 1) + 1) := by
      unfold swapRows
      rw [List.drop_set_of_lt _ _ (by omega : hi + k < hi + k + 1)]
      have : hi + k + 1 = hi + (k + 1) := by omega
      rw [this]
      exact list_drop_set_self _ _ _ hlb
    rw [p1, p2, p3, p4]
    have hts : b.take (hi + (k + 1)) = b.take (hi + k) ++ [b.getD (hi + k) emptyRow] :=
      list_take_succ_getD b (hi + k) emptyRow (by omega)
    rw [hts, List.drop_append_eq_append_drop, List.length_take]
    have h0 : hi - min (hi + k) b.length = 0 := by omega
    rw [h0, List.drop_zero]
    simp

end board
end Tetrust

namespace Tetrust
namespace board

lemma list_drop_eq_getD_cons {α : Type} (l : List α) (n : Nat) (d : α) (h : n < l.length) :
    l.drop n = l.getD n d :: l.drop (n + 1) := by
  rw [List.getD_eq_getElem l d h]
  exact (List.getElem_cons_drop l n h).symm

lemma take_succ_append_cons {α : Type} (X : List α) (y : α) (Z : List α) :
    (X ++ y :: Z).take (X.length + 1) = X ++ [y] := by
  rw [List.take_append_eq_append_take, List.take_of_length_le (by omega)]
  have h1 : X.length + 1 - X.length = 1 := by omega
  rw [h1]
  rfl

lemma seg_append_cons {α : Type} (X : List α) (y : α) (Z W : List α) :
    ((X ++ y :: (Z ++ W)).take (X.length + 1 + Z.length)).drop (X.length + 1) = Z := by
  rw [List.take_append_eq_append_take, List.take_of_length_le (by omega)]
  have h1 : X.length + 1 + Z.length - X.length = Z.length + 1 := by omega
  rw [h1, List.take_succ_cons, List.take_append_eq_append_take, Nat.sub_self,
    List.take_zero, List.append_nil, List.take_of_length_le (le_refl _)]
  have h2 : X ++ y :: Z = (X ++ [y]) ++ Z := by simp
  rw [h2]
  apply List.drop_left'
  simp

lemma drop_append_cons {α : Type} (X : List α) (y : α) (Z W : List α) :
    (X ++ y :: (Z ++ W)).drop (X.length + 1 + Z.length) = W := by
  have h2 : X ++ y :: (Z ++ W) = (X ++ y :: Z) ++ W := by simp
  rw [h2]
  apply List.drop_left'
  simp
  omega

lemma clearLoop_spec :
    ∀ (d : Nat) (b : Board) (i hoc : Int) (count : Nat),
      (i + 1 - hoc).toNat = d → 0 ≤ hoc → hoc ≤ i + 1 → i + 1 ≤ (b.length : Int) →
      clearLoop b i hoc count =
        (b.take hoc.toNat ++
          List.replicate
            ((((b.take (i + 1).toNat).drop hoc.toNat).filter (fun r => !rowIncomplete r)).length)
            emptyRow ++
          ((b.take (i + 1).toNat).drop hoc.toNat).filter (fun r => rowIncomplete r) ++
          b.drop (i + 1).toNat,
         count +
          (((b.take (i + 1).toNat).drop hoc.toNat).filter (fun r => !rowIncomplete r)).length) := by
  intro d
  induction d using Nat.strong_induction_on with
  | _ d ih =>
    intro b i hoc count hd h0 h1 h2
    rw [clearLoop.eq_def]
    by_cases hcond : hoc ≤ i
    case neg =>
      rw [dif_neg hcond]
      have heq : hoc.toNat = (i + 1).toNat := by omega
      have hseg : (b.take (i + 1).toNat).drop hoc.toNat = [] := by
        apply List.drop_eq_nil_of_le
        rw [List.length_take]
        omega
      rw [hseg]
      simp only [List.filter_nil, List.length_nil, List.replicate_zero, List.nil_append,
        List.append_nil, Nat.add_zero]
      rw [heq, List.take_append_drop]
    case pos =>
      rw [dif_pos hcond]
      have hi0 : (0 : Int) ≤ i := le_trans h0 hcond
      have hn : (i + 1).toNat = i.toNat + 1 := by omega
      have hlen : i.toNat < b.length := by omega
      by_cases hinc : rowIncomplete (b.getD i.toNat emptyRow) = true
      · rw [if_pos hinc]
        have hrec := ih (i - hoc).toNat (by omega) b (i - 1) hoc count (by omega) h0
          (by omega) (by omega)
        have hn1 : (i - 1 + 1).toNat = i.toNat := by omega
        rw [hn1] at hrec
        rw [hrec]
        have hts : b.take (i.toNat + 1) = b.take i.toNat ++ [b.getD i.toNat emptyRow] :=
          list_take_succ_getD b i.toNat emptyRow hlen
        have hsegsplit : (b.take (i.toNat + 1)).drop hoc.toNat
            = (b.take i.toNat).drop hoc.toNat ++ [b.getD i.toNat emptyRow] := by
          rw [hts, List.drop_append_eq_append_drop, List.length_take]
          have h3 : hoc.toNat - min i.toNat b.length = 0 := by omega
          rw [h3, List.drop_zero]
        have hdropsplit : b.drop i.toNat = b.getD i.toNat emptyRow :: b.drop (i.toNat + 1) :=
          list_drop_eq_getD_cons b i.toNat emptyRow hlen
        rw [hn, hsegsplit, hdropsplit]
        rw [List.filter_append, List.filter_append]
        simp only [List.filter_cons, hinc, Bool.not_true, Bool.false_eq_true, if_false,
          if_true, List.filter_nil, List.append_nil, List.length_append, List.length_nil,
          List.length_cons, List.cons_ne_nil]
        simp [List.append_assoc]
      · rw [if_neg hinc]
        have hfull : rowIncomplete (b.getD i.toNat emptyRow) = false :=
          Bool.not_eq_true _ |>.mp hinc
        have hk : hoc.toNat + (i.toNat - hoc.toNat) = i.toNat := by omega
        have hlenset : hoc.toNat + (i.toNat - hoc.toNat) < (b.set i.toNat emptyRow).length := by
          simp only [List.length_set]; omega
        have hb2 := bubbleUp_spec hoc.toNat (i.toNat - hoc.toNat) (b.set i.toNat emptyRow) hlenset
        rw [hk] at hb2
        have e1 : (b.set i.toNat emptyRow).take hoc.toNat = b.take hoc.toNat :=
          list_take_set b hoc.toNat i.toNat emptyRow (by omega)
        have e2 : (b.set i.toNat emptyRow).getD i.toNat emptyRow = emptyRow :=
          list_getD_set_self b i.toNat emptyRow emptyRow hlen
        have e3 : (b.set i.toNat emptyRow).take i.toNat = b.take i.toNat :=
          list_take_set b i.toNat i.toNat emptyRow (le_refl _)
        have e4 : (b.set i.toNat emptyRow).drop (i.toNat + 1) = b.drop (i.toNat + 1) :=
          List.drop_set_of_lt _ _ (by omega)
        rw [e1, e2, e3, e4] at hb2
        rw [hb2]
        have hlb2 : ((b.take hoc.toNat ++
            emptyRow :: ((b.take i.toNat).drop hoc.toNat ++ b.drop (i.toNat + 1))).length : Int)
            = (b.length : Int) := by
          simp only [List.length_append, List.length_cons, List.length_take, List.length_drop]
          omega
        have hrec := ih (i - hoc).toNat (by omega)
          (b.take hoc.toNat ++ emptyRow :: ((b.take i.toNat).drop hoc.toNat ++ b.drop (i.toNat + 1)))
          i (hoc + 1) (count + 1) (by omega) (by omega) (by omega) (by rw [hlb2]; omega)
        rw [hrec]
        have lt1 : (b.take hoc.toNat).length = hoc.toNat := by
          rw [List.length_take]; omega
        have lseg : ((b.take i.toNat).drop hoc.toNat).length = i.toNat - hoc.toNat := by
          rw [List.length_drop, List.length_take]; omega
        have idx1 : (hoc + 1).toNat = (b.take hoc.toNat).length + 1 := by
          rw [lt1]; omega
        have idx2 : (i + 1).toNat
            = (b.take hoc.toNat).length + 1 + ((b.take i.toNat).drop hoc.toNat).length := by
          rw [lt1, lseg]; omega
        rw [idx1, idx2, take_succ_append_cons, seg_append_cons, drop_append_cons, ← idx2]
        have hts : b.take (i.toNat + 1) = b.take i.toNat ++ [b.getD i.toNat emptyRow] :=
          list_take_succ_getD b i.toNat emptyRow hlen
        have hsegsplit : (b.take (i.toNat + 1)).drop hoc.toNat
            = (b.take i.toNat).drop hoc.toNat ++ [b.getD i.toNat emptyRow] := by
          rw [hts, List.drop_append_eq_append_drop, List.length_take]
          have h3 : hoc.toNat - min i.toNat b.length = 0 := by omega
          rw [h3, List.drop_zero]
        rw [hn, hsegsplit]
        rw [List.filter_append, List.filter_append]
        simp only [List.filter_cons, hfull, Bool.not_false, Bool.false_eq_true, if_false,
          if_true, List.filter_nil, List.append_nil, List.length_append, List.length_nil,
          List.length_cons]
        rw [List.replicate_succ]
        simp [List.append_assoc]
        omega

end board
end Tetrust

namespace Tetrust
namespace board

lemma rowIncomplete_emptyRow : rowIncomplete emptyRow = true := by decide

lemma row_eq_emptyRow_of_not_occupied (r : Row) (h : rowOccupied r = false)
    (hl : r.length = BOARD_COLS) : r = emptyRow := by
  unfold emptyRow
  rw [List.eq_replicate_iff]
  refine ⟨hl, ?_⟩
  intro c hc
  have := List.any_eq_false.mp h c hc
  simpa using this

lemma findIdx_take_not {α : Type} (l : List α) (p : α → Bool) :
    ∀ x ∈ l.take (l.findIdx p), p x = false := by
  induction l with
  | nil => simp
  | cons a l ih =>
    rw [List.findIdx_cons]
    by_cases hpa : p a
    · simp [hpa]
    · intro x hx
      rw [cond_eq_if, if_neg hpa, List.take_succ_cons] at hx
      rcases List.mem_cons.mp hx with hx1 | hx1
      · rw [hx1]
        exact Bool.not_eq_true _ |>.mp hpa
      · exact ih x hx1

lemma clear_lines_eq (b : Board) (hlen : b.length = BOARD_ROWS)
    (hrows : ∀ r ∈ b, r.length = BOARD_COLS) :
    clear_lines b =
      (List.replicate ((b.filter (fun r => !rowIncomplete r)).length) emptyRow ++
        b.filter (fun r => rowIncomplete r),
       (b.filter (fun r => !rowIncomplete r)).length) := by
  unfold clear_lines
  unfold BOARD_ROWS at hlen ⊢
  have hcast : ((22 : Nat) : Int) = (22 : Int) := by norm_cast
  rw [hcast]
  have hoc0 : 0 ≤ highestOccupiedRow b := by
    unfold highestOccupiedRow
    split
    · positivity
    · omega
  have hn22 : (((22 : Int) - 1) + 1).toNat = 22 := by decide
  have htake : b.take 22 = b := List.take_of_length_le (by omega)
  have hdrop : b.drop 22 = [] := List.drop_eq_nil_of_le (by omega)
  by_cases hany : b.any rowOccupied = true
  · have hidx : b.findIdx rowOccupied < b.length :=
      List.findIdx_lt_length_of_exists (by simpa using hany)
    have hoc_eq : highestOccupiedRow b = ((b.findIdx rowOccupied : Nat) : Int) := by
      unfold highestOccupiedRow
      rw [if_pos hany]
    have hspec := clearLoop_spec ((((22 : Int) - 1) + 1 - highestOccupiedRow b).toNat) b
      ((22 : Int) - 1) (highestOccupiedRow b) 0 rfl hoc0
      (by rw [hoc_eq]; omega) (by omega)
    rw [hspec, hn22, htake, hdrop]
    have hocn : (highestOccupiedRow b).toNat = b.findIdx rowOccupied := by
      rw [hoc_eq]
      simp
    rw [hocn]
    have hpre_empty : b.take (b.findIdx rowOccupied)
        = List.replicate (b.findIdx rowOccupied) emptyRow := by
      rw [List.eq_replicate_iff]
      constructor
      · rw [List.length_take]
        omega
      · intro r hr
        exact row_eq_emptyRow_of_not_occupied r (findIdx_take_not b rowOccupied r hr)
          (hrows r (List.mem_of_mem_take hr))
    have hfi : b.filter (fun r => rowIncomplete r)
        = List.replicate (b.findIdx rowOccupied) emptyRow ++
          (b.drop (b.findIdx rowOccupied)).filter (fun r => rowIncomplete r) := by
      conv_lhs => rw [← List.take_append_drop (b.findIdx rowOccupied) b]
      rw [List.filter_append, hpre_empty]
      congr 1
      apply List.filter_eq_self.mpr
      intro r hr
      rw [List.eq_of_mem_replicate hr]
      exact rowIncomplete_emptyRow
    have hff : b.filter (fun r => !rowIncomplete r)
        = (b.drop (b.findIdx rowOccupied)).filter (fun r => !rowIncomplete r) := by
      conv_lhs => rw [← List.take_append_drop (b.findIdx rowOccupied) b]
      rw [List.filter_append, hpre_empty]
      have hnil : (List.replicate (b.findIdx rowOccupied) emptyRow).filter
          (fun r => !rowIncomplete r) = [] := by
        apply List.filter_eq_nil_iff.mpr
        intro r hr
        rw [List.eq_of_mem_replicate hr]
        simp [rowIncomplete_emptyRow]
      rw [hnil, List.nil_append]
    rw [hfi, hff, hpre_empty]
    have hcomm : List.replicate (b.findIdx rowOccupied) emptyRow ++
        List.replicate (((b.drop (b.findIdx rowOccupied)).filter
          (fun r => !rowIncomplete r)).length) emptyRow
        = List.replicate (((b.drop (b.findIdx rowOccupied)).filter
            (fun r => !rowIncomplete r)).length) emptyRow ++
          List.replicate (b.findIdx rowOccupied) emptyRow := by
      rw [← List.replicate_add, ← List.replicate_add, Nat.add_comm]
    simp only [List.append_nil, ← List.append_assoc, hcomm, Nat.zero_add]
  · have hoc_eq : highestOccupiedRow b = 0 := by
      unfold highestOccupiedRow
      rw [if_neg hany]
    have hspec := clearLoop_spec ((((22 : Int) - 1) + 1 - highestOccupiedRow b).toNat) b
      ((22 : Int) - 1) (highestOccupiedRow b) 0 rfl hoc0
      (by rw [hoc_eq]; omega) (by omega)
    rw [hspec, hn22, htake, hdrop, hoc_eq]
    simp

end board
end Tetrust

namespace Tetrust

open block board game timer

lemma clear_lines_no_full (b : Board) (hlen : b.length = BOARD_ROWS)
    (hrows : ∀ r ∈ b, r.length = BOARD_COLS)
    (hnofull : ∀ r ∈ b, rowIncomplete r = true) : clear_lines b = (b, 0) := by
  rw [clear_lines_eq b hlen hrows]
  have h0 : b.filter (fun r => !rowIncomplete r) = [] := by
    apply List.filter_eq_nil_iff.mpr
    intro r hr
    simp [hnofull r hr]
  have h1 : b.filter (fun r => rowIncomplete r) = b :=
    List.filter_eq_self.mpr hnofull
  rw [h0, h1]
  simp

/-- C1: for every (well-formed 22×10) board, `clear_lines` removes every
fully occupied row and consolidates the surviving rows downwards into the
vacated space: the result is empty rows on top followed by exactly the
incomplete rows of the original board, each keeping its cells, in their
original relative order; the returned count is the number of fully
occupied rows. -/
theorem clear_lines_clears_full_rows (b : Board)
    (hlen : b.length = BOARD_ROWS) (hrows : ∀ r ∈ b, r.length = BOARD_COLS) :
    (clear_lines b).1 =
      List.replicate ((b.filter (fun r => !rowIncomplete r)).length) emptyRow ++
        b.filter (fun r => rowIncomplete r) ∧
    (clear_lines b).2 = (b.filter (fun r => !rowIncomplete r)).length := by
  rw [clear_lines_eq b hlen hrows]
  exact ⟨rfl, rfl⟩

/-- Witness for `clear_lines_clears_full_rows`: rows 18 and 20 partial,
rows 19 and 21 full — two lines are cleared and the two partial rows end
up as the bottom two rows, in their original relative order. -/
theorem clear_lines_clears_full_rows_witness :
    (clear_lines sandwichBoard).1 = List.replicate 20 emptyRow ++ [rowAltA, rowAltB] ∧
    (clear_lines sandwichBoard).2 = 2 := by
  obtain ⟨h1, h2⟩ := clear_lines_clears_full_rows sandwichBoard (by decide) (by decide)
  constructor
  · rw [h1]
    decide
  · rw [h2]
    decide

/-- C8: `clear_lines` returns 0 and leaves the board unchanged whenever
no row is fully occupied — in particular a second call immediately after
any call clears nothing and changes nothing — and on the board whose 22
rows are all fully occupied it returns 22 and leaves the board empty. -/
theorem clear_lines_idempotent_and_full_board (b : Board)
    (hlen : b.length = BOARD_ROWS) (hrows : ∀ r ∈ b, r.length = BOARD_COLS) :
    ((∀ r ∈ b, rowIncomplete r = true) → clear_lines b = (b, 0)) ∧
    clear_lines (clear_lines b).1 = ((clear_lines b).1, 0) ∧
    clear_lines filledBoard = (board.Board.new, BOARD_ROWS) := by
  refine ⟨clear_lines_no_full b hlen hrows, ?_, ?_⟩
  · have hc1 : (clear_lines b).1 =
        List.replicate ((b.filter (fun r => !rowIncomplete r)).length) emptyRow ++
          b.filter (fun r => rowIncomplete r) := by
      rw [clear_lines_eq b hlen hrows]
    apply clear_lines_no_full
    · rw [hc1]
      rw [List.length_append, List.length_replicate]
      have hpart : b.length = (b.filter (fun r => !rowIncomplete r)).length +
          (b.filter (fun r => !(!rowIncomplete r))).length :=
        List.length_eq_length_filter_add _
      have hdouble : b.filter (fun r => !(!rowIncomplete r)) = b.filter (fun r => rowIncomplete r) := by
        apply List.filter_congr
        intro r _
        simp
      rw [hdouble] at hpart
      omega
    · rw [hc1]
      intro r hr
      rcases List.mem_append.mp hr with hr1 | hr1
      · rw [List.eq_of_mem_replicate hr1]
        decide
      · exact hrows r (List.mem_of_mem_filter hr1)
    · rw [hc1]
      intro r hr
      rcases List.mem_append.mp hr with hr1 | hr1
      · rw [List.eq_of_mem_replicate hr1]
        decide
      · exact (List.mem_filter.mp hr1).2
  · rw [clear_lines_eq filledBoard (by decide) (by decide)]
    decide

/-- Witness for `clear_lines_idempotent_and_full_board` on the empty
board: clearing it returns 0 and changes nothing. -/
theorem clear_lines_idempotent_and_full_board_witness :
    clear_lines board.Board.new = (board.Board.new, 0) :=
  (clear_lines_idempotent_and_full_board board.Board.new (by decide) (by decide)).1
    (by decide)

end Tetrust

namespace Tetrust

open block board game

/-- C2: when the active piece lands — a Gravity event whose `move_down`
collides — the core fixes the piece's four cells into the board, adds
exactly the `clear_lines` result to the (u32) score, then either raises
`game_over` and stops (queue and active piece untouched) if the buffer
zone is occupied, or dequeues the queue head as the new active piece and
pushes one freshly generated piece, keeping the queue at
`QUEUE_LEN = 3`. -/
theorem landing_sequence (gs : GameState) (t : BlockType) (q : List BlockType)
    (b2 : Board) (n : Nat)
    (hgo : gs.game_over = false)
    (hq : gs.queue = t :: q)
    (hcl : board.clear_lines (board.fix_active_block gs.board gs.active_block) = (b2, n))
    (hcol : board.collides gs.board gs.active_block.move_down = true)
    (htop : gs.active_block.top < USIZE - 1) :
    update gs Event.Gravity = some (
      if board.buffer_zone_occupied b2 then
        { gs with board := b2, score := (gs.score + n) % U32, game_over := true }
      else
        { gs with
          board := b2
          score := (gs.score + n) % U32
          active_block := ActiveBlock.new t
          queue := q ++ [gs.gen gs.genIdx]
          genIdx := gs.genIdx + 1 }) ∧
    (gs.queue.length = QUEUE_LEN → (q ++ [gs.gen gs.genIdx]).length = QUEUE_LEN) := by
  have htop1 : min (gs.active_block.top + 1) (USIZE - 1) - 1 = gs.active_block.top := by
    unfold USIZE at htop ⊢
    omega
  have hupdown : gs.active_block.move_down.move_up = gs.active_block := by
    unfold ActiveBlock.move_down ActiveBlock.move_up
    rw [htop1]
  constructor
  · simp only [update, hgo, Bool.false_eq_true, if_false]
    simp only [handle_gravity, hcol, if_true, hupdown]
    simp only [handle_landing, hcl]
    by_cases hbuf : board.buffer_zone_occupied b2 = true
    · rw [if_pos hbuf, if_pos hbuf]
    · rw [if_neg hbuf, if_neg hbuf]
      simp only [load_next_active_block, hq]
      simp [hgo]
  · intro h
    rw [hq] at h
    simp only [List.length_append, List.length_cons, List.length_nil] at h ⊢
    omega

/-- Witness for `landing_sequence`: an O block resting on the floor of
the empty board lands on the next gravity event; no lines clear, the
score stays 0, the I block at the queue head becomes active and the queue
is refilled to length 3. -/
theorem landing_sequence_witness :
    update landingState Event.Gravity = some { landingState with
      board := landedBoard
      score := 0
      active_block := ActiveBlock.new BlockType.I
      queue := [BlockType.J, BlockType.O, BlockType.O]
      genIdx := 5 } := by
  have hcl : board.clear_lines
      (board.fix_active_block landingState.board landingState.active_block)
      = (landedBoard, 0) := by
    rw [clear_lines_eq _ (by decide) (by decide)]
    decide
  have h := (landing_sequence landingState BlockType.I [BlockType.J, BlockType.O] landedBoard 0
    rfl rfl hcl (by decide) (by decide)).1
  rw [h, if_neg (by decide)]
  rfl

end Tetrust

namespace Tetrust
open block board game

lemma getCell_false_of_row_unoccupied (b : Board) (r c : Nat)
    (h : rowOccupied (b.getD r emptyRow) = false) : getCell b r c = false := by
  unfold getCell
  unfold rowOccupied at h
  rcases Nat.lt_or_ge c (b.getD r emptyRow).length with hc | hc
  · rw [List.getD_eq_getElem _ _ hc]
    have := List.any_eq_false.mp h _ (List.getElem_mem hc)
    simpa using this
  · rw [List.getD_eq_default _ _ hc]

lemma rowOccupied_false_iff (b : Board) (r : Nat) :
    rowOccupied (b.getD r emptyRow) = false ↔ ∀ c, getCell b r c = false := by
  constructor
  · intro h c
    exact getCell_false_of_row_unoccupied b r c h
  · intro h
    unfold rowOccupied
    rw [List.any_eq_false]
    intro x hx
    obtain ⟨c, hc, hval⟩ := List.mem_iff_getElem.mp hx
    have := h c
    unfold getCell at this
    rw [List.getD_eq_getElem _ _ hc, hval] at this
    simp [this]

lemma collides_new_false (b : Board) (t : BlockType)
    (h0 : rowOccupied (b.getD 0 emptyRow) = false)
    (h1 : rowOccupied (b.getD 1 emptyRow) = false) :
    collides b (ActiveBlock.new t) = false := by
  unfold collides
  rw [List.any_eq_false]
  intro pos hpos
  have hb : pos.1 ≤ 1 ∧ pos.2 ≤ 9 := by
    cases t with
    | I =>
      have hall : ∀ p ∈ (ActiveBlock.new BlockType.I).board_positions,
          p.1 ≤ 1 ∧ p.2 ≤ 9 := by decide
      exact hall pos hpos
    | J =>
      have hall : ∀ p ∈ (ActiveBlock.new BlockType.J).board_positions,
          p.1 ≤ 1 ∧ p.2 ≤ 9 := by decide
      exact hall pos hpos
    | O =>
      have hall : ∀ p ∈ (ActiveBlock.new BlockType.O).board_positions,
          p.1 ≤ 1 ∧ p.2 ≤ 9 := by decide
      exact hall pos hpos
  obtain ⟨hr, hc⟩ := hb
  have hget : getCell b pos.1 pos.2 = false := by
    rcases Nat.le_one_iff_eq_zero_or_eq_one.mp hr with h | h
    · rw [h]
      exact getCell_false_of_row_unoccupied b 0 pos.2 h0
    · rw [h]
      exact getCell_false_of_row_unoccupied b 1 pos.2 h1
  have d1 : decide (BOARD_ROWS ≤ pos.1) = false := decide_eq_false (by unfold BOARD_ROWS; omega)
  have d2 : decide (BOARD_COLS ≤ pos.2) = false := decide_eq_false (by unfold BOARD_COLS; omega)
  rw [d1, d2, hget]
  simp

lemma top_le_of_not_collides (b : Board) (a : ActiveBlock)
    (h : collides b a = false) : a.top ≤ 21 := by
  have hne : a.rotation.positions ≠ [] := by
    unfold ActiveBlock.rotation
    have : ∀ (t : BlockType) (i : Fin 4), (rotationAt t i.val).positions ≠ [] := by decide
    exact this a.block_type a.rotation_index
  obtain ⟨rc, hrc⟩ := List.exists_mem_of_ne_nil _ hne
  have hmem : (a.top + rc.1, usizeOfInt (a.left + rc.2)) ∈ a.board_positions := by
    unfold ActiveBlock.board_positions
    exact List.mem_map_of_mem _ hrc
  have := List.any_eq_false.mp h _ hmem
  simp only [Bool.or_eq_true, decide_eq_true_eq, not_or] at this
  have hrow := this.1
  unfold BOARD_ROWS at hrow
  omega

lemma move_left_right (a : ActiveBlock) : a.move_left.move_right = a := by
  unfold ActiveBlock.move_left ActiveBlock.move_right
  rw [Int.sub_add_cancel]

lemma move_right_left (a : ActiveBlock) : a.move_right.move_left = a := by
  unfold ActiveBlock.move_left ActiveBlock.move_right
  rw [Int.add_sub_cancel]

lemma rotate_ccw_cw (a : ActiveBlock) : a.rotate_counter_clockwise.rotate_clockwise = a := by
  unfold ActiveBlock.rotate_clockwise ActiveBlock.rotate_counter_clockwise
  have h : a.rotation_index + 3 + 1 = a.rotation_index := by
    have : ∀ i : Fin 4, i + 3 + 1 = i := by decide
    exact this a.rotation_index
  rw [h]

lemma rotate_cw_ccw (a : ActiveBlock) : a.rotate_clockwise.rotate_counter_clockwise = a := by
  unfold ActiveBlock.rotate_clockwise ActiveBlock.rotate_counter_clockwise
  have h : a.rotation_index + 1 + 3 = a.rotation_index := by
    have : ∀ i : Fin 4, i + 1 + 3 = i := by decide
    exact this a.rotation_index
  rw [h]

end Tetrust

namespace Tetrust
open block board game

lemma setCell_length (b : Board) (r c : Nat) : (setCell b r c).length = b.length := by
  simp [setCell]

lemma setCell_row_length (b : Board) (rr cc r : Nat) :
    ((setCell b rr cc).getD r emptyRow).length = (b.getD r emptyRow).length := by
  unfold setCell
  rcases Nat.lt_or_ge rr b.length with hrr | hrr
  · by_cases heq : r = rr
    · subst heq
      rw [list_getD_set_self _ _ _ _ hrr, List.length_set]
    · rw [list_getD_set_ne _ _ _ _ _ (fun hx => heq hx.symm)]
  · rw [List.set_eq_of_length_le hrr]

lemma fixList_length (ps : List (Nat × Nat)) (b : Board) :
    (ps.foldl (fun acc pos => setCell acc pos.1 pos.2) b).length = b.length := by
  induction ps generalizing b with
  | nil => rfl
  | cons p ps ih => rw [List.foldl_cons, ih, setCell_length]

lemma fixList_row_length (ps : List (Nat × Nat)) (b : Board) (r : Nat) :
    ((ps.foldl (fun acc pos => setCell acc pos.1 pos.2) b).getD r emptyRow).length
      = (b.getD r emptyRow).length := by
  induction ps generalizing b with
  | nil => rfl
  | cons p ps ih => rw [List.foldl_cons, ih, setCell_row_length]

lemma getCell_setCell (b : Board) (rr cc r c : Nat) (hr : r < b.length)
    (hc : c < (b.getD r emptyRow).length) :
    getCell (setCell b rr cc) r c
      = (getCell b r c || (decide (r = rr) && decide (c = cc))) := by
  unfold setCell getCell
  rcases Nat.lt_or_ge rr b.length with hrr | hrr
  · by_cases heq : r = rr
    · subst heq
      rw [list_getD_set_self _ _ _ _ hrr]
      by_cases hceq : c = cc
      · subst hceq
        rw [list_getD_set_self _ _ _ _ hc]
        simp
      · rw [list_getD_set_ne _ _ _ _ _ (fun hx => hceq hx.symm)]
        simp [hceq]
    · rw [list_getD_set_ne _ _ _ _ _ (fun hx => heq hx.symm)]
      simp [heq]
  · rw [List.set_eq_of_length_le hrr]
    have : decide (r = rr) = false := decide_eq_false (by omega)
    simp [this]

lemma getCell_fixList (ps : List (Nat × Nat)) (b : Board) (r c : Nat) (hr : r < b.length)
    (hc : c < (b.getD r emptyRow).length) :
    getCell (ps.foldl (fun acc pos => setCell acc pos.1 pos.2) b) r c
      = (getCell b r c || ps.contains (r, c)) := by
  induction ps generalizing b with
  | nil => simp
  | cons p ps ih =>
    rw [List.foldl_cons]
    have hr1 : r < (setCell b p.1 p.2).length := by rw [setCell_length]; exact hr
    have hc1 : c < ((setCell b p.1 p.2).getD r emptyRow).length := by
      rw [setCell_row_length]; exact hc
    rw [ih _ hr1 hc1, getCell_setCell b p.1 p.2 r c hr hc]
    apply Bool.eq_iff_iff.mpr
    simp only [Bool.or_eq_true, Bool.and_eq_true, decide_eq_true_eq, List.contains_cons,
      beq_iff_eq, Prod.ext_iff]
    tauto

end Tetrust

namespace Tetrust
open block board game

lemma piece_row1_of_row0 (a : ActiveBlock) (c : Nat) (h : (0, c) ∈ a.board_positions) :
    ∃ cx, (1, cx) ∈ a.board_positions := by
  unfold ActiveBlock.board_positions at h ⊢
  obtain ⟨rc, hrc, heq⟩ := List.mem_map.mp h
  have htop : a.top = 0 ∧ rc.1 = 0 := by
    have := congrArg Prod.fst heq
    simp only at this
    constructor <;> omega
  have hlocal : ∀ (t : BlockType) (i : Fin 4), ∀ rc ∈ (rotationAt t i.val).positions,
      rc.1 = 0 → ∃ rc2 ∈ (rotationAt t i.val).positions, rc2.1 = 1 := by decide
  obtain ⟨rc2, hrc2, hone⟩ :=
    hlocal a.block_type a.rotation_index rc hrc htop.2
  refine ⟨usizeOfInt (a.left + rc2.2), List.mem_map.mpr ⟨rc2, hrc2, ?_⟩⟩
  rw [htop.1, hone]

lemma getCell_oob (b : Board) (r c : Nat) (h : (b.getD r emptyRow).length ≤ c) :
    getCell b r c = false := by
  unfold getCell
  exact List.getD_eq_default _ _ h

lemma getD_row_length (b : Board) (r : Nat) (hrows : ∀ x ∈ b, x.length = BOARD_COLS) :
    (b.getD r emptyRow).length = BOARD_COLS := by
  rcases Nat.lt_or_ge r b.length with h | h
  · rw [List.getD_eq_getElem _ _ h]
    exact hrows _ (List.getElem_mem h)
  · rw [List.getD_eq_default _ _ h]
    simp [emptyRow]

lemma bufferInv_fix (b : Board) (a : ActiveBlock)
    (hlen : b.length = BOARD_ROWS) (hrows : ∀ r ∈ b, r.length = BOARD_COLS)
    (hbuf : rowOccupied (b.getD 1 emptyRow) = false →
      rowOccupied (b.getD 0 emptyRow) = false)
    (hnc : collides b a = false)
    (h1 : rowOccupied ((fix_active_block b a).getD 1 emptyRow) = false) :
    rowOccupied ((fix_active_block b a).getD 0 emptyRow) = false := by
  have h22 : (1 : Nat) < b.length := by
    unfold BOARD_ROWS at hlen
    omega
  rw [rowOccupied_false_iff] at h1 ⊢
  intro c
  rcases Nat.lt_or_ge c BOARD_COLS with hc | hc
  · unfold fix_active_block
    rw [getCell_fixList a.board_positions b 0 c (by omega)
      (by rw [getD_row_length b 0 hrows]; exact hc)]
    have hb1 : rowOccupied (b.getD 1 emptyRow) = false := by
      rw [rowOccupied_false_iff]
      intro cx
      rcases Nat.lt_or_ge cx BOARD_COLS with hcx | hcx
      · have hchar := getCell_fixList a.board_positions b 1 cx h22
          (by rw [getD_row_length b 1 hrows]; exact hcx)
        have := h1 cx
        unfold fix_active_block at this
        rw [hchar] at this
        exact (Bool.or_eq_false_iff.mp this).1
      · exact getCell_oob b 1 cx (by rw [getD_row_length b 1 hrows]; exact hcx)
    have hgb : getCell b 0 c = false := getCell_false_of_row_unoccupied b 0 c (hbuf hb1)
    rw [hgb, Bool.false_or]
    by_contra hcon
    have hmem : ((0 : Nat), c) ∈ a.board_positions := by
      have : a.board_positions.contains (0, c) = true := by
        cases hx : a.board_positions.contains (0, c)
        · exact absurd hx hcon
        · rfl
      simpa using this
    obtain ⟨cx, hcx⟩ := piece_row1_of_row0 a c hmem
    have hnc1 := List.any_eq_false.mp hnc _ hcx
    simp only [Bool.or_eq_true, decide_eq_true_eq, not_or] at hnc1
    have hcxlt : cx < BOARD_COLS := by
      have := hnc1.1.2
      omega
    have hchar1 := getCell_fixList a.board_positions b 1 cx h22
      (by rw [getD_row_length b 1 hrows]; exact hcxlt)
    have hfix1 := h1 cx
    unfold fix_active_block at hfix1
    rw [hchar1] at hfix1
    have hcont1 : a.board_positions.contains (1, cx) = true := by
      simpa using hcx
    rw [hcont1] at hfix1
    simp at hfix1
  · exact getCell_oob _ 0 c (by
      unfold fix_active_block
      rw [fixList_row_length, getD_row_length b 0 hrows]
      exact hc)

end Tetrust

namespace Tetrust
open block board game

lemma filter_inc_eq_self_of_no_full (b : Board)
    (hk : (b.filter (fun r => !rowIncomplete r)).length = 0) :
    b.filter (fun r => rowIncomplete r) = b := by
  apply List.filter_eq_self.mpr
  intro r hr
  have hnil : b.filter (fun r => !rowIncomplete r) = [] := List.length_eq_zero.mp hk
  have := List.filter_eq_nil_iff.mp hnil r hr
  simpa using this

lemma clear_lines_wf (b : Board) (hlen : b.length = BOARD_ROWS)
    (hrows : ∀ r ∈ b, r.length = BOARD_COLS) :
    (clear_lines b).1.length = BOARD_ROWS ∧
    ∀ r ∈ (clear_lines b).1, r.length = BOARD_COLS := by
  have hc1 : (clear_lines b).1 =
      List.replicate ((b.filter (fun r => !rowIncomplete r)).length) emptyRow ++
        b.filter (fun r => rowIncomplete r) := by
    rw [clear_lines_eq b hlen hrows]
  constructor
  · rw [hc1, List.length_append, List.length_replicate]
    have hpart : b.length = (b.filter (fun r => !rowIncomplete r)).length +
        (b.filter (fun r => !(!rowIncomplete r))).length :=
      List.length_eq_length_filter_add _
    have hdouble : b.filter (fun r => !(!rowIncomplete r))
        = b.filter (fun r => rowIncomplete r) := by
      apply List.filter_congr
      intro r _
      simp
    rw [hdouble] at hpart
    omega
  · rw [hc1]
    intro r hr
    rcases List.mem_append.mp hr with hr1 | hr1
    · rw [List.eq_of_mem_replicate hr1]
      simp [emptyRow]
    · exact hrows r (List.mem_of_mem_filter hr1)

lemma clear_lines_bufferInv (b : Board) (hlen : b.length = BOARD_ROWS)
    (hrows : ∀ r ∈ b, r.length = BOARD_COLS)
    (hbuf : rowOccupied (b.getD 1 emptyRow) = false →
      rowOccupied (b.getD 0 emptyRow) = false)
    (h1 : rowOccupied ((clear_lines b).1.getD 1 emptyRow) = false) :
    rowOccupied ((clear_lines b).1.getD 0 emptyRow) = false := by
  have hc1 : (clear_lines b).1 =
      List.replicate ((b.filter (fun r => !rowIncomplete r)).length) emptyRow ++
        b.filter (fun r => rowIncomplete r) := by
    rw [clear_lines_eq b hlen hrows]
  rcases Nat.eq_zero_or_pos ((b.filter (fun r => !rowIncomplete r)).length) with hk | hk
  · rw [hc1, hk, List.replicate_zero, List.nil_append,
      filter_inc_eq_self_of_no_full b hk] at h1 ⊢
    exact hbuf h1
  · rw [hc1]
    have hgd : (List.replicate ((b.filter (fun r => !rowIncomplete r)).length) emptyRow ++
        b.filter (fun r => rowIncomplete r)).getD 0 emptyRow = emptyRow := by
      rw [List.getD_append _ _ _ _ (by rw [List.length_replicate]; omega)]
      rw [List.getD_eq_getElem _ _ (by rw [List.length_replicate]; omega)]
      exact List.getElem_replicate _ _
    rw [hgd]
    decide

end Tetrust

namespace Tetrust
open block board game

lemma inv_init (gen : Nat → BlockType) : Inv (GameState.new gen) := by
  refine ⟨?_, ?_, ?_, ?_, ?_⟩
  · simp [GameState.new, Board.new, BOARD_ROWS]
  · intro r hr
    simp only [GameState.new, Board.new] at hr
    rw [List.eq_of_mem_replicate hr]
    simp [emptyRow]
  · simp [GameState.new, QUEUE_LEN]
  · intro _
    show rowOccupied (Board.new.getD 0 emptyRow) = false
    decide
  · intro _
    show collides Board.new (ActiveBlock.new (gen 0)) = false
    apply collides_new_false <;> decide

lemma inv_step (gs gs' : GameState) (e : Event) (hinv : Inv gs)
    (hup : update gs e = some gs') : Inv gs' := by
  obtain ⟨hlen, hrows, hqlen, hbuf, hcol⟩ := hinv
  by_cases hgo : gs.game_over = true
  · unfold update at hup
    rw [if_pos hgo] at hup
    injection hup with h
    subst h
    exact ⟨hlen, hrows, hqlen, hbuf, hcol⟩
  · have hgo' : gs.game_over = false := Bool.not_eq_true _ |>.mp hgo
    have hnc : collides gs.board gs.active_block = false := hcol hgo'
    unfold update at hup
    rw [if_neg hgo] at hup
    cases e with
    | Quit => exact absurd hup (by simp)
    | Move d =>
      injection hup with h
      subst h
      unfold handle_move
      cases d with
      | Left =>
        by_cases hc : collides gs.board gs.active_block.move_left = true
        · simp only [if_pos hc, move_left_right]
          exact ⟨hlen, hrows, hqlen, hbuf, fun _ => hnc⟩
        · simp only [if_neg hc]
          exact ⟨hlen, hrows, hqlen, hbuf, fun _ => Bool.not_eq_true _ |>.mp hc⟩
      | Right =>
        by_cases hc : collides gs.board gs.active_block.move_right = true
        · simp only [if_pos hc, move_right_left]
          exact ⟨hlen, hrows, hqlen, hbuf, fun _ => hnc⟩
        · simp only [if_neg hc]
          exact ⟨hlen, hrows, hqlen, hbuf, fun _ => Bool.not_eq_true _ |>.mp hc⟩
    | Rotate d =>
      injection hup with h
      subst h
      unfold handle_rotate
      cases d with
      | Left =>
        by_cases hc : collides gs.board gs.active_block.rotate_counter_clockwise = true
        · simp only [if_pos hc, rotate_ccw_cw]
          exact ⟨hlen, hrows, hqlen, hbuf, fun _ => hnc⟩
        · simp only [if_neg hc]
          exact ⟨hlen, hrows, hqlen, hbuf, fun _ => Bool.not_eq_true _ |>.mp hc⟩
      | Right =>
        by_cases hc : collides gs.board gs.active_block.rotate_clockwise = true
        · simp only [if_pos hc, rotate_cw_ccw]
          exact ⟨hlen, hrows, hqlen, hbuf, fun _ => hnc⟩
        · simp only [if_neg hc]
          exact ⟨hlen, hrows, hqlen, hbuf, fun _ => Bool.not_eq_true _ |>.mp hc⟩
    | Gravity =>
      unfold handle_gravity at hup
      by_cases hc : collides gs.board gs.active_block.move_down = true
      · rw [if_pos hc] at hup
        -- landing
        have htop : gs.active_block.top ≤ 21 := top_le_of_not_collides _ _ hnc
        have hupdown : gs.active_block.move_down.move_up = gs.active_block := by
          unfold ActiveBlock.move_down ActiveBlock.move_up
          have : min (gs.active_block.top + 1) (USIZE - 1) - 1 = gs.active_block.top := by
            unfold USIZE
            omega
          rw [this]
        rw [hupdown] at hup
        unfold handle_landing at hup
        set b1 := fix_active_block gs.board gs.active_block with hb1
        have hlen1 : b1.length = BOARD_ROWS := by
          rw [hb1]
          unfold fix_active_block
          rw [fixList_length]
          exact hlen
        have hrows1 : ∀ r ∈ b1, r.length = BOARD_COLS := by
          intro r hr
          have hgd : ∀ rr : Nat, (b1.getD rr emptyRow).length = BOARD_COLS := by
            intro rr
            rw [hb1]
            unfold fix_active_block
            rw [fixList_row_length]
            exact getD_row_length gs.board rr hrows
          obtain ⟨idx, hidx, hval⟩ := List.mem_iff_getElem.mp hr
          have := hgd idx
          rw [List.getD_eq_getElem _ _ hidx, hval] at this
          exact this
        have hbuf1 : rowOccupied (b1.getD 1 emptyRow) = false →
            rowOccupied (b1.getD 0 emptyRow) = false := by
          rw [hb1]
          exact bufferInv_fix gs.board gs.active_block hlen hrows hbuf hnc
        have hlen2 := (clear_lines_wf b1 hlen1 hrows1).1
        have hrows2 := (clear_lines_wf b1 hlen1 hrows1).2
        have hbuf2 := clear_lines_bufferInv b1 hlen1 hrows1 hbuf1
        by_cases hbz : buffer_zone_occupied (clear_lines b1).1 = true
        · rw [if_pos hbz] at hup
          injection hup with h
          subst h
          exact ⟨hlen2, hrows2, hqlen, hbuf2, by intro hfalse; simp at hfalse⟩
        · rw [if_neg hbz] at hup
          unfold load_next_active_block at hup
          cases hq : gs.queue with
          | nil =>
            rw [hq] at hqlen
            exact absurd hqlen (by decide)
          | cons t rest =>
            rw [hq] at hup
            injection hup with h
            subst h
            refine ⟨hlen2, hrows2, ?_, hbuf2, ?_⟩
            · rw [hq] at hqlen
              simp only [List.length_cons] at hqlen
              simp only [List.length_append, List.length_cons, List.length_nil]
              omega
            · intro _
              apply collides_new_false
              · apply hbuf2
                unfold buffer_zone_occupied at hbz
                exact Bool.not_eq_true _ |>.mp hbz
              · unfold buffer_zone_occupied at hbz
                exact Bool.not_eq_true _ |>.mp hbz
      · rw [if_neg hc] at hup
        injection hup with h
        subst h
        exact ⟨hlen, hrows, hqlen, hbuf, fun _ => Bool.not_eq_true _ |>.mp hc⟩

end Tetrust

namespace Tetrust
open block board game

lemma reachable_inv (gs : GameState) (h : Reachable gs) : Inv gs := by
  induction h with
  | init gen => exact inv_init gen
  | step hr hup ih => exact inv_step _ _ _ ih hup

/-- C3: in every game state reachable from construction by any sequence
of update events, the active piece never collides with the board while
the game is running; in particular, on the landing path (a Gravity event
whose `move_down` collides) the piece handed to `fix_active_piece` —
`move_up` of the moved-down piece — is exactly the active piece, so the
board never has a colliding or out-of-bounds piece fixed into it. -/
theorem active_piece_never_fixed_colliding (gs : GameState) (hreach : Reachable gs)
    (hgo : gs.game_over = false) :
    board.collides gs.board gs.active_block = false ∧
    (board.collides gs.board gs.active_block.move_down = true →
      gs.active_block.move_down.move_up = gs.active_block) := by
  have hinv := reachable_inv gs hreach
  have hnc := hinv.2.2.2.2 hgo
  refine ⟨hnc, fun _ => ?_⟩
  have htop := top_le_of_not_collides _ _ hnc
  unfold ActiveBlock.move_down ActiveBlock.move_up
  have hm : min (gs.active_block.top + 1) (USIZE - 1) - 1 = gs.active_block.top := by
    unfold USIZE
    omega
  rw [hm]

/-- Witness for `active_piece_never_fixed_colliding` at the freshly
constructed game. -/
theorem active_piece_never_fixed_colliding_witness :
    board.collides exampleState.board exampleState.active_block = false :=
  (active_piece_never_fixed_colliding exampleState (Reachable.init constGen) rfl).1

end Tetrust
